import Mathlib

/-!
Verification of the indexing / vector-search / adaptive-selection / ingestion
core of the Rag_LLM_Assignment repository, as a shallow embedding in Lean 4.

Conventions of the embedding:
* Python floats are modelled as rationals (ℚ); the constants 0.35, 0.5, 0.05
  of the adaptive selector are the exact rationals 7/20, 1/2, 1/20.
* L2 normalization divides a vector by a positive scalar (its norm plus a
  positive epsilon).  Since that operation needs a real square root and only
  rescales all cosine similarities of a query by one positive factor, search
  functions take the already-normalized query vector as input; none of the
  verified claims depend on the scale of the scores.
* Fallible Python code (assertions, raised exceptions) is modelled with
  Except/Option; functions that silently return values keep plain types.
* numpy argsort / argpartition have an unspecified order for equal keys
  (the default kind is an unstable quicksort), so the search functions are
  parametric in the implementation of those two primitives, constrained by
  their documented contracts (IsArgsortDesc / IsTopKSel below).
-/

namespace Rag

/-- Document record of app/core/entities.py. -/
structure Document where
  doc_id : String
  title : String
  text : String
deriving DecidableEq, Repr

instance : Inhabited Document := ⟨⟨"", "", ""⟩⟩

/-- Hit record of app/core/entities.py (score is cosine similarity). -/
structure Hit where
  doc_id : String
  title : String
  score : ℚ
  chunk : String
deriving DecidableEq, Repr

instance : Inhabited Hit := ⟨⟨"", "", 0, ""⟩⟩

/-- RetrievalResult record of app/core/entities.py. -/
structure RetrievalResult where
  hits : List Hit
  contexts : List String
deriving DecidableEq, Repr

/-- Answer record of app/core/entities.py. -/
structure Answer where
  text : String
  citations : List Hit
  contexts : List String
deriving DecidableEq, Repr

/-! ## Adaptive context selection (QAService._select_strong, qa_service.py 75-102) -/

/-- Stable descending sort by score: models the Python in-place
`hits.sort(key=lambda h: h.score or 0.0, reverse=True)` (Python list.sort is
stable; a stable sort under a total preorder has a unique output, so the
insertion sort below produces exactly the list CPython produces). -/
def sortHitsDesc (hits : List Hit) : List Hit :=
  List.insertionSort (fun a b => b.score ≤ a.score) hits

/-- Python statistics.median on rationals: middle element of the ascending
sort for odd length, mean of the two middle elements for even length. -/
def pymedian (xs : List ℚ) : ℚ :=
  let s := List.insertionSort (fun a b => a ≤ b) xs
  if xs.length % 2 = 1 then s.getD (xs.length / 2) 0
  else (s.getD (xs.length / 2 - 1) 0 + s.getD (xs.length / 2) 0) / 2

/-- Default of the RAG_MIN_SIMILARITY environment knob (0.05). -/
def MIN_SIM_default : ℚ := 1/20

/-- QAService._select_strong(hits) from qa_service.py lines 75-102:
sort hits descending by score, compute the adaptive cutoff
max(MIN_SIM, 0.35*max, 0.5*median) (median = max when there is a single hit),
keep the hits clearing the cutoff, fall back to the top cite_top_k when none
clears it, and truncate to cite_top_k. -/
def selectStrong (minSim : ℚ) (citeTopK : ℕ) (hits : List Hit) : List Hit :=
  if hits = [] then []
  else
    let sorted := sortHitsDesc hits
    let maxScore := (sorted.headD default).score
    let medianScore :=
      if 1 < hits.length then pymedian (sorted.map (fun h => h.score)) else maxScore
    let dynamicMin := max minSim (max (7/20 * maxScore) (1/2 * medianScore))
    let strong := sorted.filter (fun h => dynamicMin ≤ h.score)
    let strong2 := if strong = [] then sorted.take citeTopK else strong
    strong2.take citeTopK

/-- Cutoff value used by selectStrong, named for the statements below. -/
def dynamicCutoff (minSim : ℚ) (hits : List Hit) : ℚ :=
  let sorted := sortHitsDesc hits
  let maxScore := (sorted.headD default).score
  let medianScore :=
    if 1 < hits.length then pymedian (sorted.map (fun h => h.score)) else maxScore
  max minSim (max (7/20 * maxScore) (1/2 * medianScore))

/-! ## Vector index search (np_index.py / numpy_index.py)

Both index classes compute `sims = mat @ qn` (rows are unit vectors, qn the
normalized query) and then select the top-k rows with numpy primitives:
* `NpCosineIndex.search` (np_index.py 33-44): full `argsort(-sims)` when
  `k >= N`, otherwise `argpartition(-sims, k)[:k]` re-sorted by
  `argsort(-sims[idx])`; finally `idx[:k]` is paired with its scores.
* `BasicNumpyIndex.search` (numpy_index.py 21-28):
  `argpartition(-sims, kth=min(k, N-1))[:k]`, re-sorted the same way.

numpy's default quicksort argsort and argpartition leave the relative order
of equal keys unspecified, so the two primitives enter the model as function
parameters constrained by their documented contracts. -/

/-- Dot product of two rational vectors (numpy `row @ qn`). -/
def dotQ (xs ys : List ℚ) : ℚ := (List.zipWith (fun a b => a * b) xs ys).sum

/-- Similarity vector `sims = mat @ qn` of np_index.py line 38. -/
def simsOf (mat : List (List ℚ)) (qn : List ℚ) : List ℚ :=
  mat.map (fun row => dotQ row qn)

/-- Contract of `np.argsort(-s)`: a permutation of the positions of `s`
along which the values of `s` are non-increasing.  Tie order is NOT part of
the contract (the default sort kind is an unstable quicksort). -/
def IsArgsortDesc (s : List ℚ) (idx : List ℕ) : Prop :=
  List.Perm idx (List.range s.length) ∧
  idx.Pairwise (fun i j => s.getD j 0 ≤ s.getD i 0)

instance (s : List ℚ) (idx : List ℕ) : Decidable (IsArgsortDesc s idx) := by
  unfold IsArgsortDesc; infer_instance

/-- Contract of `np.argpartition(-s, ...)[:k]`: `k` distinct valid positions
of `s` whose values dominate every position left out.  Which of several
equal-valued boundary positions are selected is NOT part of the contract. -/
def IsTopKSel (s : List ℚ) (k : ℕ) (sel : List ℕ) : Prop :=
  sel.Nodup ∧ sel.length = k ∧ (∀ i ∈ sel, i < s.length) ∧
  (∀ i ∈ sel, ∀ j, j < s.length → j ∉ sel → s.getD j 0 ≤ s.getD i 0)

instance (s : List ℚ) (k : ℕ) (sel : List ℕ) : Decidable (IsTopKSel s k sel) := by
  unfold IsTopKSel; infer_instance

/-- NpCosineIndex.search on a built matrix (np_index.py lines 36-44).
`f` stands for `np.argsort` applied to the negated keys, `g` for
`np.argpartition(-sims, k)[:k]`. -/
def npCosineSearch (f : List ℚ → List ℕ) (g : List ℚ → ℕ → List ℕ)
    (mat : List (List ℚ)) (qn : List ℚ) (k : ℕ) : List (ℕ × ℚ) :=
  let sims := simsOf mat qn
  let idx :=
    if sims.length ≤ k then f sims
    else
      let sel := g sims k
      let sub := sel.map (fun i => sims.getD i 0)
      (f sub).map (fun j => sel.getD j 0)
  (idx.take k).map (fun i => (i, sims.getD i 0))

/-- BasicNumpyIndex.search on a built matrix (numpy_index.py lines 23-28).
`g` stands for `np.argpartition(-sims, kth=min(k, size-1))[:k]`, whose
result has `min k N` entries; `f` is `np.argsort` on negated keys. -/
def basicNumpySearch (f : List ℚ → List ℕ) (g : List ℚ → ℕ → List ℕ)
    (mat : List (List ℚ)) (qn : List ℚ) (k : ℕ) : List (ℕ × ℚ) :=
  let sims := simsOf mat qn
  let sel := g sims k
  let sub := sel.map (fun i => sims.getD i 0)
  let idx := (f sub).map (fun j => sel.getD j 0)
  idx.map (fun i => (i, sims.getD i 0))

/-- NpCosineIndex.search including its unbuilt state: `self.mat is None`
makes it return the empty list (np_index.py lines 34-35), with no error. -/
def npCosineSearchSt (f : List ℚ → List ℕ) (g : List ℚ → ℕ → List ℕ)
    (st : Option (List (List ℚ))) (q : List ℚ) (k : ℕ) : List (ℕ × ℚ) :=
  match st with
  | none => []
  | some mat => npCosineSearch f g mat q k

/-- BasicNumpyIndex.search including its unbuilt state: the assert on
numpy_index.py line 22 raises when `self._mat is None`. -/
def basicNumpySearchSt (f : List ℚ → List ℕ) (g : List ℚ → ℕ → List ℕ)
    (st : Option (List (List ℚ))) (q : List ℚ) (k : ℕ) :
    Except String (List (ℕ × ℚ)) :=
  match st with
  | none => Except.error "Index not built/loaded"
  | some mat => Except.ok (basicNumpySearch f g mat q k)

/-- Stable descending argsort: one legal implementation of the
`np.argsort(-s)` contract (used for witnesses). -/
def stableArgsortDesc (s : List ℚ) : List ℕ :=
  List.insertionSort (fun i j => s.getD j 0 ≤ s.getD i 0) (List.range s.length)

/-- Prefix of the stable argsort: one legal implementation of the
`np.argpartition(-s, ...)[:k]` contract (used for witnesses). -/
def stableArgpartTopK (s : List ℚ) (k : ℕ) : List ℕ :=
  (stableArgsortDesc s).take k

/-- An equally legal argsort implementation that orders the two equal keys
of the similarity vector `[1, 1]` by descending position. -/
def tieArgsortDesc (s : List ℚ) : List ℕ :=
  if s = [1, 1] then [1, 0] else stableArgsortDesc s

/-- Everything a search result must satisfy per the (amended) claim C1:
`min k N` pairs, scores non-increasing, distinct in-range row indices paired
with their own similarity, all rows for `k ≥ N`, and no left-out row scoring
strictly higher than a returned one. -/
def SearchResultSpec (N : ℕ) (s : List ℚ) (k : ℕ) (res : List (ℕ × ℚ)) : Prop :=
  res.length = min k N ∧
  (res.map Prod.snd).Pairwise (fun a b => b ≤ a) ∧
  (res.map Prod.fst).Nodup ∧
  (∀ p ∈ res, p.1 < N ∧ p.2 = s.getD p.1 0) ∧
  (N ≤ k → List.Perm (res.map Prod.fst) (List.range N)) ∧
  (∀ p ∈ res, ∀ j, j < N → j ∉ res.map Prod.fst → s.getD j 0 ≤ s.getD p.1 0)

lemma simsOf_length (mat : List (List ℚ)) (qn : List ℚ) :
    (simsOf mat qn).length = mat.length := List.length_map _ _

lemma map_getD_range {α : Type} (l : List α) (d : α) :
    (List.range l.length).map (fun i => l.getD i d) = l := by
  induction l with
  | nil => rfl
  | cons x xs ih =>
    rw [List.length_cons, List.range_succ_eq_map, List.map_cons, List.map_map]
    have h2 : ((fun i => (x :: xs).getD i d) ∘ Nat.succ) = (fun i => xs.getD i d) := by
      funext i; rfl
    rw [h2, ih]
    rfl

lemma getD_map_of_lt (f : ℕ → ℚ) (l : List ℕ) (n : ℕ) (h : n < l.length) :
    (l.map f).getD n 0 = f (l.getD n 0) := by
  rw [List.getD_eq_getElem?_getD, List.getD_eq_getElem?_getD, List.getElem?_map,
    List.getElem?_eq_getElem h]
  simp

lemma map_fst_pair (l : List ℕ) (v : ℕ → ℚ) :
    (l.map (fun i => (i, v i))).map Prod.fst = l := by
  induction l with
  | nil => rfl
  | cons x xs ih => simp only [List.map_cons, ih]

lemma map_snd_pair (l : List ℕ) (v : ℕ → ℚ) :
    (l.map (fun i => (i, v i))).map Prod.snd = l.map v := by
  induction l with
  | nil => rfl
  | cons x xs ih => simp only [List.map_cons, ih]

/-- Core of lines 42-43 of np_index.py (and 26-27 of numpy_index.py):
re-sorting a selection `sel` of positions by an argsort of its own key
values yields a permutation of `sel` along which `s` is non-increasing. -/
lemma sorted_selection (s : List ℚ) (sel ord : List ℕ)
    (hnd : sel.Nodup) (hlt : ∀ i ∈ sel, i < s.length)
    (hperm : List.Perm ord (List.range (sel.map (fun i => s.getD i 0)).length))
    (hsort : ord.Pairwise (fun a b =>
      (sel.map (fun i => s.getD i 0)).getD b 0 ≤ (sel.map (fun i => s.getD i 0)).getD a 0)) :
    List.Perm (ord.map (fun j => sel.getD j 0)) sel ∧
    (ord.map (fun j => sel.getD j 0)).Nodup ∧
    (ord.map (fun j => sel.getD j 0)).Pairwise (fun i j => s.getD j 0 ≤ s.getD i 0) := by
  have hlen : (sel.map (fun i => s.getD i 0)).length = sel.length := List.length_map _ _
  have hperm' : List.Perm ord (List.range sel.length) := by rwa [hlen] at hperm
  have hmem : ∀ a ∈ ord, a < sel.length := by
    intro a ha
    exact List.mem_range.mp (hperm'.mem_iff.mp ha)
  have hpidx : List.Perm (ord.map (fun j => sel.getD j 0)) sel := by
    have := List.Perm.map (fun j => sel.getD j 0) hperm'
    rwa [map_getD_range] at this
  refine ⟨hpidx, hpidx.symm.nodup hnd, ?_⟩
  rw [List.pairwise_map]
  refine List.Pairwise.imp_of_mem ?_ hsort
  intro a b ha hb hR
  rwa [getD_map_of_lt _ _ _ (hmem a ha), getD_map_of_lt _ _ _ (hmem b hb)] at hR

lemma npCosineSearch_spec (f : List ℚ → List ℕ) (g : List ℚ → ℕ → List ℕ)
    (mat : List (List ℚ)) (qn : List ℚ) (k : ℕ)
    (hf : mat.length ≤ k → IsArgsortDesc (simsOf mat qn) (f (simsOf mat qn)))
    (hg : k < mat.length →
      IsTopKSel (simsOf mat qn) k (g (simsOf mat qn) k) ∧
      IsArgsortDesc ((g (simsOf mat qn) k).map (fun i => (simsOf mat qn).getD i 0))
        (f ((g (simsOf mat qn) k).map (fun i => (simsOf mat qn).getD i 0)))) :
    SearchResultSpec mat.length (simsOf mat qn) k (npCosineSearch f g mat qn k) := by
  have hsl : (simsOf mat qn).length = mat.length := simsOf_length mat qn
  set s := simsOf mat qn with hs
  by_cases hcase : s.length ≤ k
  · -- full argsort branch, k ≥ N
    obtain ⟨hpermf, hsortf⟩ := hf (hsl ▸ hcase)
    have hlenf : (f s).length = s.length := by
      simpa [List.length_range] using hpermf.length_eq
    have hidx : npCosineSearch f g mat qn k
        = (f s).map (fun i => (i, s.getD i 0)) := by
      simp only [npCosineSearch, ← hs, if_pos hcase]
      rw [List.take_of_length_le (le_trans (le_of_eq hlenf) hcase)]
    have hfst : (npCosineSearch f g mat qn k).map Prod.fst = f s := by
      rw [hidx, map_fst_pair]
    have hsnd : (npCosineSearch f g mat qn k).map Prod.snd
        = (f s).map (fun i => s.getD i 0) := by
      rw [hidx, map_snd_pair]
    refine ⟨?_, ?_, ?_, ?_, ?_, ?_⟩
    · rw [hidx, List.length_map, hlenf, hsl, Nat.min_eq_right (hsl ▸ hcase)]
    · rw [hsnd, List.pairwise_map]; exact hsortf
    · rw [hfst]; exact hpermf.symm.nodup (List.nodup_range _)
    · intro p hp
      rw [hidx, List.mem_map] at hp
      obtain ⟨i, hi, hpi⟩ := hp
      have hir : i < s.length := List.mem_range.mp (hpermf.mem_iff.mp hi)
      constructor
      · rw [← hpi]; exact hsl ▸ hir
      · rw [← hpi]
    · intro _
      rw [hfst, ← hsl]; exact hpermf
    · intro p hp j hjN hjnot
      exfalso
      apply hjnot
      rw [hfst]
      exact hpermf.mem_iff.mpr (List.mem_range.mpr (hsl ▸ hjN))
  · -- argpartition branch, k < N
    have hkN : k < mat.length := by omega
    obtain ⟨⟨hnd, hlensel, hltsel, htop⟩, hfsub⟩ := hg hkN
    obtain ⟨hperm2, hsort2⟩ := hfsub
    obtain ⟨hpidx, hndidx, hsortidx⟩ :=
      sorted_selection s (g s k) (f ((g s k).map (fun i => s.getD i 0)))
        hnd hltsel hperm2 hsort2
    have hlenidx :
        ((f ((g s k).map (fun i => s.getD i 0))).map (fun j => (g s k).getD j 0)).length
          = k := by
      rw [hpidx.length_eq, hlensel]
    have hidx : npCosineSearch f g mat qn k
        = ((f ((g s k).map (fun i => s.getD i 0))).map (fun j => (g s k).getD j 0)).map
            (fun i => (i, s.getD i 0)) := by
      simp only [npCosineSearch, ← hs, if_neg hcase]
      rw [List.take_of_length_le (le_of_eq hlenidx)]
    have hfst : (npCosineSearch f g mat qn k).map Prod.fst
        = (f ((g s k).map (fun i => s.getD i 0))).map (fun j => (g s k).getD j 0) := by
      rw [hidx, map_fst_pair]
    have hsnd : (npCosineSearch f g mat qn k).map Prod.snd
        = ((f ((g s k).map (fun i => s.getD i 0))).map (fun j => (g s k).getD j 0)).map
            (fun i => s.getD i 0) := by
      rw [hidx, map_snd_pair]
    refine ⟨?_, ?_, ?_, ?_, ?_, ?_⟩
    · rw [hidx, List.length_map, hlenidx, Nat.min_eq_left (le_of_lt hkN)]
    · rw [hsnd, List.pairwise_map]; exact hsortidx
    · rw [hfst]; exact hndidx
    · intro p hp
      rw [hidx, List.mem_map] at hp
      obtain ⟨i, hi, hpi⟩ := hp
      have hisel : i ∈ g s k := hpidx.mem_iff.mp hi
      constructor
      · rw [← hpi]; exact hsl ▸ hltsel i hisel
      · rw [← hpi]
    · intro hNk; omega
    · intro p hp j hjN hjnot
      rw [hidx, List.mem_map] at hp
      obtain ⟨i, hi, hpi⟩ := hp
      have hisel : i ∈ g s k := hpidx.mem_iff.mp hi
      have hjsel : j ∉ g s k := by
        intro hj
        apply hjnot
        rw [hfst]
        exact hpidx.mem_iff.mpr hj
      have := htop i hisel j (hsl ▸ hjN) hjsel
      rw [← hpi]
      exact this

lemma basicNumpySearch_spec (f : List ℚ → List ℕ) (g : List ℚ → ℕ → List ℕ)
    (mat : List (List ℚ)) (qn : List ℚ) (k : ℕ)
    (hg : IsTopKSel (simsOf mat qn) (min k mat.length) (g (simsOf mat qn) k))
    (hf : IsArgsortDesc ((g (simsOf mat qn) k).map (fun i => (simsOf mat qn).getD i 0))
      (f ((g (simsOf mat qn) k).map (fun i => (simsOf mat qn).getD i 0)))) :
    SearchResultSpec mat.length (simsOf mat qn) k (basicNumpySearch f g mat qn k) := by
  have hsl : (simsOf mat qn).length = mat.length := simsOf_length mat qn
  set s := simsOf mat qn with hs
  obtain ⟨hnd, hlensel, hltsel, htop⟩ := hg
  obtain ⟨hperm2, hsort2⟩ := hf
  obtain ⟨hpidx, hndidx, hsortidx⟩ :=
    sorted_selection s (g s k) (f ((g s k).map (fun i => s.getD i 0)))
      hnd hltsel hperm2 hsort2
  have hlenidx :
      ((f ((g s k).map (fun i => s.getD i 0))).map (fun j => (g s k).getD j 0)).length
        = min k mat.length := by
    rw [hpidx.length_eq, hlensel]
  have hidx : basicNumpySearch f g mat qn k
      = ((f ((g s k).map (fun i => s.getD i 0))).map (fun j => (g s k).getD j 0)).map
          (fun i => (i, s.getD i 0)) := by
    simp only [basicNumpySearch, ← hs]
  have hfst : (basicNumpySearch f g mat qn k).map Prod.fst
      = (f ((g s k).map (fun i => s.getD i 0))).map (fun j => (g s k).getD j 0) := by
    rw [hidx, map_fst_pair]
  have hsnd : (basicNumpySearch f g mat qn k).map Prod.snd
      = ((f ((g s k).map (fun i => s.getD i 0))).map (fun j => (g s k).getD j 0)).map
          (fun i => s.getD i 0) := by
    rw [hidx, map_snd_pair]
  refine ⟨?_, ?_, ?_, ?_, ?_, ?_⟩
  · rw [hidx, List.length_map, hlenidx]
  · rw [hsnd, List.pairwise_map]; exact hsortidx
  · rw [hfst]; exact hndidx
  · intro p hp
    rw [hidx, List.mem_map] at hp
    obtain ⟨i, hi, hpi⟩ := hp
    have hisel : i ∈ g s k := hpidx.mem_iff.mp hi
    constructor
    · rw [← hpi]; exact hsl ▸ hltsel i hisel
    · rw [← hpi]
  · intro hNk
    have hminN : min k mat.length = mat.length := Nat.min_eq_right hNk
    have hsub : g s k ⊆ List.range mat.length := by
      intro i hi
      exact List.mem_range.mpr (hsl ▸ hltsel i hi)
    have hsp : List.Subperm (g s k) (List.range mat.length) := hnd.subperm hsub
    have hselperm : List.Perm (g s k) (List.range mat.length) := by
      refine hsp.perm_of_length_le ?_
      rw [List.length_range, hlensel, hminN]
    rw [hfst]
    exact hpidx.trans hselperm
  · intro p hp j hjN hjnot
    rw [hidx, List.mem_map] at hp
    obtain ⟨i, hi, hpi⟩ := hp
    have hisel : i ∈ g s k := hpidx.mem_iff.mp hi
    have hjsel : j ∉ g s k := by
      intro hj
      apply hjnot
      rw [hfst]
      exact hpidx.mem_iff.mpr hj
    have := htop i hisel j (hsl ▸ hjN) hjsel
    rw [← hpi]
    exact this

/-- Claim C1, counterexample to the tie-break clause.  The claim asserts
that rows with equal scores appear in ascending row-index order.  numpy's
argsort contract (default unstable quicksort) does not fix tie order, and a
contract-compliant argsort makes NpCosineIndex.search on the two-row matrix
[[1],[1]] (both rows scoring 1 against query [1]) return row 1 before
row 0. -/
theorem C1_search_tie_counterexample :
    IsArgsortDesc (simsOf [[1], [1]] [1]) (tieArgsortDesc (simsOf [[1], [1]] [1]))
    ∧ npCosineSearch tieArgsortDesc stableArgpartTopK [[1], [1]] [1] 2 = [(1, 1), (0, 1)]
    ∧ npCosineSearch tieArgsortDesc stableArgpartTopK [[1], [1]] [1] 2 ≠ [(0, 1), (1, 1)] := by
  refine ⟨by with_unfolding_all decide, by with_unfolding_all decide,
    by with_unfolding_all decide⟩

/-- Claim C1 (amended): for every built index of N vectors and every
argsort/argpartition implementation satisfying the numpy contracts, search
(in both index classes) returns exactly min(k, N) pairs (so exactly k when
1 ≤ k ≤ N, and all N rows when k ≥ N), sorted by non-increasing score;
indices are distinct valid rows paired with their own similarity score, and
no omitted row scores strictly higher than a returned one.  The relative
order of equal-score rows is NOT guaranteed (numpy sorting of ties is
unspecified; see the counterexample). -/
theorem C1_search_topk_amended (f : List ℚ → List ℕ) (g gB : List ℚ → ℕ → List ℕ)
    (mat : List (List ℚ)) (qn : List ℚ) (k : ℕ)
    (hf : mat.length ≤ k → IsArgsortDesc (simsOf mat qn) (f (simsOf mat qn)))
    (hg : k < mat.length →
      IsTopKSel (simsOf mat qn) k (g (simsOf mat qn) k) ∧
      IsArgsortDesc ((g (simsOf mat qn) k).map (fun i => (simsOf mat qn).getD i 0))
        (f ((g (simsOf mat qn) k).map (fun i => (simsOf mat qn).getD i 0))))
    (hgB : IsTopKSel (simsOf mat qn) (min k mat.length) (gB (simsOf mat qn) k))
    (hfB : IsArgsortDesc ((gB (simsOf mat qn) k).map (fun i => (simsOf mat qn).getD i 0))
      (f ((gB (simsOf mat qn) k).map (fun i => (simsOf mat qn).getD i 0)))) :
    SearchResultSpec mat.length (simsOf mat qn) k (npCosineSearch f g mat qn k) ∧
    SearchResultSpec mat.length (simsOf mat qn) k (basicNumpySearch f gB mat qn k) :=
  ⟨npCosineSearch_spec f g mat qn k hf hg, basicNumpySearch_spec f gB mat qn k hgB hfB⟩

/-- Claim C1, witness: the amended theorem applied to the concrete index
[[1],[0]] with normalized query [1] and k = 1, using the stable argsort and
its take-k prefix as the contract-compliant numpy primitives. -/
theorem C1_search_topk_witness :
    SearchResultSpec 2 (simsOf [[1], [0]] [1]) 1
      (npCosineSearch stableArgsortDesc stableArgpartTopK [[1], [0]] [1] 1) ∧
    SearchResultSpec 2 (simsOf [[1], [0]] [1]) 1
      (basicNumpySearch stableArgsortDesc stableArgpartTopK [[1], [0]] [1] 1) :=
  C1_search_topk_amended stableArgsortDesc stableArgpartTopK stableArgpartTopK
    [[1], [0]] [1] 1 (by with_unfolding_all decide) (by with_unfolding_all decide)
    (by with_unfolding_all decide) (by with_unfolding_all decide)

/-- Claim C5, counterexample: NpCosineIndex.search before any build/load
does not raise; lines 34-35 of np_index.py silently return the empty list
(here at query [1], k = 1, and at k = 3). -/
theorem C5_unbuilt_counterexample :
    npCosineSearchSt stableArgsortDesc stableArgpartTopK none [1] 1 = []
    ∧ npCosineSearchSt stableArgsortDesc stableArgpartTopK none [1] 3 = [] :=
  ⟨rfl, rfl⟩

/-- Claim C5 (amended): searching before any build/load is a fatal
precondition error only for BasicNumpyIndex (its assert raises); for
NpCosineIndex it silently returns the empty list, for every query vector,
every k and every argsort/argpartition implementation. -/
theorem C5_unbuilt_amended (f : List ℚ → List ℕ) (g : List ℚ → ℕ → List ℕ)
    (q : List ℚ) (k : ℕ) :
    basicNumpySearchSt f g none q k = Except.error "Index not built/loaded"
    ∧ npCosineSearchSt f g none q k = [] :=
  ⟨rfl, rfl⟩

/-! ## Claim C2: adaptive context selection -/

lemma sortHitsDesc_ne_nil (hits : List Hit) (h : hits ≠ []) : sortHitsDesc hits ≠ [] := by
  intro hcon
  apply h
  have hperm := List.perm_insertionSort (fun a b : Hit => b.score ≤ a.score) hits
  rw [sortHitsDesc] at hcon
  rw [hcon] at hperm
  exact List.eq_nil_of_length_eq_zero hperm.length_eq.symm

lemma selectStrong_eq (minSim : ℚ) (ctk : ℕ) (hits : List Hit) (hne : hits ≠ []) :
    selectStrong minSim ctk hits =
      (if (sortHitsDesc hits).filter (fun h => dynamicCutoff minSim hits ≤ h.score) = []
        then (sortHitsDesc hits).take ctk
        else (sortHitsDesc hits).filter (fun h => dynamicCutoff minSim hits ≤ h.score)).take
        ctk := by
  simp only [selectStrong, dynamicCutoff, if_neg hne]

/-- Hit list of the worked example in the spec: scores 0.90, 0.50, 0.40,
0.10. -/
def exampleHits : List Hit :=
  [⟨"d1", "t1", 9/10, "x1"⟩, ⟨"d2", "t2", 1/2, "x2"⟩,
   ⟨"d3", "t3", 2/5, "x3"⟩, ⟨"d4", "t4", 1/10, "x4"⟩]

/-- Claim C2: for every non-empty hit list the adaptive selector keeps
exactly the hits (in descending-score order) clearing the cutoff
max(MIN_SIM, 0.35*max, 0.5*median) truncated to cite_top_k, falls back to
the top cite_top_k hits when no hit clears the cutoff, and never returns an
empty selection (cite_top_k is positive in every deployment; the repository
always passes 5); on scores [0.90, 0.50, 0.40, 0.10] with MIN_SIM = 0.05 it
selects exactly the first three hits. -/
theorem C2_select_strong (minSim : ℚ) (ctk : ℕ) (hits : List Hit)
    (hne : hits ≠ []) (hctk : 0 < ctk) :
    selectStrong minSim ctk hits ≠ [] ∧
    (selectStrong minSim ctk hits).length ≤ ctk ∧
    ((sortHitsDesc hits).filter (fun h => dynamicCutoff minSim hits ≤ h.score) ≠ [] →
      selectStrong minSim ctk hits
        = ((sortHitsDesc hits).filter (fun h => dynamicCutoff minSim hits ≤ h.score)).take ctk) ∧
    ((sortHitsDesc hits).filter (fun h => dynamicCutoff minSim hits ≤ h.score) = [] →
      selectStrong minSim ctk hits = (sortHitsDesc hits).take ctk) ∧
    selectStrong (1/20) 5 exampleHits = exampleHits.take 3 := by
  have heq := selectStrong_eq minSim ctk hits hne
  by_cases hfil :
      (sortHitsDesc hits).filter (fun h => dynamicCutoff minSim hits ≤ h.score) = []
  · rw [heq, if_pos hfil, List.take_take, Nat.min_self]
    refine ⟨?_, List.length_take_le _ _, ?_, fun _ => rfl, ?_⟩
    · rw [Ne, List.take_eq_nil_iff]
      push_neg
      exact ⟨Nat.pos_iff_ne_zero.mp hctk, sortHitsDesc_ne_nil hits hne⟩
    · intro hcon; exact absurd hfil hcon
    · with_unfolding_all decide
  · rw [heq, if_neg hfil]
    refine ⟨?_, List.length_take_le _ _, fun _ => rfl, ?_, ?_⟩
    · rw [Ne, List.take_eq_nil_iff]
      push_neg
      exact ⟨Nat.pos_iff_ne_zero.mp hctk, hfil⟩
    · intro hcon; exact absurd hcon hfil
    · with_unfolding_all decide

/-- Claim C2, witness: the theorem applied to the worked example with
MIN_SIM = 0.05 and cite_top_k = 5. -/
theorem C2_select_strong_witness :
    selectStrong (1/20) 5 exampleHits ≠ [] ∧
    (selectStrong (1/20) 5 exampleHits).length ≤ 5 := by
  have h := C2_select_strong (1/20) 5 exampleHits
    (by with_unfolding_all decide) (by decide)
  exact ⟨h.1, h.2.1⟩

/-! ## Claims C3 and C9: IndexingService.startup (indexing_service.py)

File system and collaborator effects of `startup` (fingerprint reads, index
persistence, the embedding provider) enter the model as an environment
record; the returned StartupOutput additionally records which side effects
the call performed (build/save/fingerprint-write vs load). -/

/-- ASCII model of the whitespace class used by the `\s` of the sentence
splitter regex. -/
def isPySpace (c : Char) : Bool := c.isWhitespace

/-- Model of `re.split` with the sentence-boundary pattern of
indexing_service.py line 14: split after each of `.` `!` `?` that is
followed by a (maximal) whitespace run, consuming the run. -/
def splitSentencesAux (cs acc : List Char) : List (List Char) :=
  match cs with
  | [] => [acc.reverse]
  | c :: rest =>
    if ((c = '.') || (c = '!') || (c = '?')) &&
        (match rest with | r :: _ => isPySpace r | [] => false) then
      (acc.reverse ++ [c]) :: splitSentencesAux (rest.dropWhile isPySpace) []
    else
      splitSentencesAux rest (c :: acc)
termination_by cs.length
decreasing_by
  · have h := (rest.dropWhile_suffix isPySpace).length_le
    simp only [List.length_cons]
    omega
  · simp only [List.length_cons]
    omega

def splitSentences (t : String) : List String :=
  (splitSentencesAux t.toList []).map (fun cs => String.mk cs)

/-- Buffer loop of `_maybe_chunk` (indexing_service.py lines 16-25),
returning the sentence groups that get joined into chunks. -/
def chunkLoopAux (maxLen : ℕ) (sents buf : List String) (cur : ℕ) : List (List String) :=
  match sents with
  | [] => if buf = [] then [] else [buf]
  | s :: rest =>
    if maxLen < cur + s.length + 1 ∧ buf ≠ [] then
      buf :: chunkLoopAux maxLen rest [s] s.length
    else
      chunkLoopAux maxLen rest (buf ++ [s]) (cur + s.length + 1)

/-- `_maybe_chunk(text, max_len)` of indexing_service.py lines 9-26: a zero
budget (or text within budget) yields the whole text as one unit, otherwise
sentences are grouped greedily into chunks joined with single spaces. -/
def maybeChunk (text : String) (maxLen : ℕ) : List String :=
  if maxLen = 0 ∨ text.length ≤ maxLen then [text]
  else (chunkLoopAux maxLen (splitSentences text) [] 0).map
    (fun ws => String.intercalate " " ws)

/-- Texts embedded by a rebuild: every document's chunks in document
order (`texts.extend(_maybe_chunk(d.text, chunk_len))`, lines 54-56). -/
def chunksOfDocs (docs : List Document) (chunkLen : ℕ) : List String :=
  docs.flatMap (fun d => maybeChunk d.text chunkLen)

/-- Collaborator state visible to one `startup()` call. -/
structure IndexingEnv where
  currentFp : String
  lastFp : Option String
  indexExists : Bool
  docs : List Document
  chunkLen : ℕ
  embedBatch : List String → List (List ℚ)

/-- Observable outcome of `startup()`: the returned dict plus the side
effects performed. `builtMatrix` holds the embeddings passed to
`VectorIndex.build` (build L2-normalizes rows in place, preserving their
number and order). -/
structure StartupOutput where
  rebuilt : Bool
  count : ℕ
  builtMatrix : Option (List (List ℚ))
  savedIndex : Bool
  wroteFp : Option String
  loadedIndexFromDisk : Bool
deriving DecidableEq, Repr

/-- IndexingService.startup (indexing_service.py lines 47-64). -/
def indexingStartup (env : IndexingEnv) : StartupOutput :=
  if env.lastFp ≠ some env.currentFp ∨ env.indexExists = false then
    let texts := chunksOfDocs env.docs env.chunkLen
    let embeddings := env.embedBatch texts
    ⟨true, texts.length, some embeddings, true, some env.currentFp, false⟩
  else
    ⟨false, env.docs.length, none, false, none, true⟩

/-- Claim C3: startup rebuilds (load documents, embed all chunks in one
batched call, build, save, write the current fingerprint) and returns
rebuilt = true with count = number of chunks embedded exactly when the
stored fingerprint differs from the current one or the index artifact is
absent; otherwise it loads documents and the persisted index and returns
rebuilt = false with count = number of documents. -/
theorem C3_startup_dispatch (env : IndexingEnv) :
    ((env.lastFp ≠ some env.currentFp ∨ env.indexExists = false) →
      indexingStartup env =
        ⟨true, (chunksOfDocs env.docs env.chunkLen).length,
         some (env.embedBatch (chunksOfDocs env.docs env.chunkLen)), true,
         some env.currentFp, false⟩) ∧
    ((env.lastFp = some env.currentFp ∧ env.indexExists = true) →
      indexingStartup env = ⟨false, env.docs.length, none, false, none, true⟩) := by
  constructor
  · intro h
    simp only [indexingStartup, if_pos h]
  · intro h
    have hnot : ¬ (env.lastFp ≠ some env.currentFp ∨ env.indexExists = false) := by
      push_neg
      exact ⟨h.1, by simp [h.2]⟩
    simp only [indexingStartup, if_neg hnot]

/-- Concrete environment exercising the rebuild branch of claim C3. -/
def exampleEnvC3 : IndexingEnv :=
  { currentFp := "abc", lastFp := some "old", indexExists := true,
    docs := [⟨"d1", "t1", "hello"⟩, ⟨"d2", "t2", "world"⟩], chunkLen := 0,
    embedBatch := fun ts => ts.map (fun _ => [0]) }

/-- Concrete environment exercising the load branch of claim C3. -/
def exampleEnvC3load : IndexingEnv :=
  { exampleEnvC3 with lastFp := some "abc" }

/-- Claim C3, witness: both branches of the dispatch theorem at concrete
environments. -/
theorem C3_startup_dispatch_witness :
    indexingStartup exampleEnvC3 = ⟨true, 2, some [[0], [0]], true, some "abc", false⟩ ∧
    indexingStartup exampleEnvC3load = ⟨false, 2, none, false, none, true⟩ := by
  constructor
  · have h := (C3_startup_dispatch exampleEnvC3).1 (Or.inl (by with_unfolding_all decide))
    rw [h]
    with_unfolding_all decide
  · have h := (C3_startup_dispatch exampleEnvC3load).2 ⟨rfl, rfl⟩
    rw [h]
    rfl

lemma maybeChunk_zero (t : String) : maybeChunk t 0 = [t] := by
  simp [maybeChunk]

lemma chunksOfDocs_zero (docs : List Document) :
    chunksOfDocs docs 0 = docs.map (fun d => d.text) := by
  induction docs with
  | nil => rfl
  | cons d ds ih =>
    rw [chunksOfDocs, List.flatMap_cons, maybeChunk_zero, List.map_cons]
    rw [chunksOfDocs] at ih
    rw [ih]
    rfl

/-- Claim C9: with the chunk budget 0 a rebuild embeds exactly one text per
document in document order, the built index has exactly as many rows as the
store has documents, and hydrating row r through MetadataStore.get returns
the document whose text produced row r (hypothesis hemb is the positional
embed_batch contract: one vector per input text, in order). -/
theorem C9_chunk0_positional (env : IndexingEnv) (embedOne : String → List ℚ)
    (hch : env.chunkLen = 0)
    (hemb : ∀ ts, env.embedBatch ts = ts.map embedOne)
    (hreb : env.lastFp ≠ some env.currentFp ∨ env.indexExists = false) :
    (indexingStartup env).rebuilt = true ∧
    (indexingStartup env).count = env.docs.length ∧
    (indexingStartup env).builtMatrix = some (env.docs.map (fun d => embedOne d.text)) ∧
    ∀ M, (indexingStartup env).builtMatrix = some M →
      M.length = env.docs.length ∧
      ∀ r, r < M.length →
        ∃ d, env.docs[r]? = some d ∧ M[r]? = some (embedOne d.text) := by
  have hout := (C3_startup_dispatch env).1 hreb
  have htexts : chunksOfDocs env.docs env.chunkLen = env.docs.map (fun d => d.text) := by
    rw [hch, chunksOfDocs_zero]
  have hmat : env.embedBatch (chunksOfDocs env.docs env.chunkLen)
      = env.docs.map (fun d => embedOne d.text) := by
    rw [htexts, hemb, List.map_map]
    rfl
  refine ⟨?_, ?_, ?_, ?_⟩
  · rw [hout]
  · rw [hout]
    simp only [htexts, List.length_map]
  · rw [hout]
    simp only [hmat]
  · intro M hM
    rw [hout] at hM
    simp only [hmat, Option.some.injEq] at hM
    subst hM
    refine ⟨List.length_map _ _, ?_⟩
    intro r hr
    rw [List.length_map] at hr
    refine ⟨env.docs[r], List.getElem?_eq_getElem hr, ?_⟩
    rw [List.getElem?_map, List.getElem?_eq_getElem hr]
    rfl

/-- Concrete environment and embedder for the claim C9 witness. -/
def exampleEnvC9 : IndexingEnv :=
  { currentFp := "abc", lastFp := none, indexExists := false,
    docs := [⟨"d1", "t1", "alpha"⟩, ⟨"d2", "t2", "beta"⟩], chunkLen := 0,
    embedBatch := fun ts => ts.map (fun t => [(t.length : ℚ)]) }

/-- Claim C9, witness: the theorem applied to a two-document store with
chunking disabled and a length-valued embedder. -/
theorem C9_chunk0_positional_witness :
    (indexingStartup exampleEnvC9).rebuilt = true ∧
    (indexingStartup exampleEnvC9).count = 2 ∧
    (indexingStartup exampleEnvC9).builtMatrix = some [[5], [4]] := by
  have h := C9_chunk0_positional exampleEnvC9 (fun t => [(t.length : ℚ)])
    rfl (fun ts => rfl) (Or.inl (by with_unfolding_all decide))
  refine ⟨h.1, h.2.1, ?_⟩
  rw [h.2.2.1]
  with_unfolding_all decide

/-! ## Claims C4, C10: bulk ingestion counters (ingest_service.py)

The JSONL file enters the model as the per-line outcome of strip/json.loads
(blank line, malformed line, or a parsed JSON object whose values are
strings or non-strings); the papers table is an in-memory list of rows
keyed by doc_id, and the blake2b fallback embedding and the sha256 file
fingerprint are abstract function parameters (external crypto primitives;
the counters never depend on their values). -/

/-- JSON value as far as `_pick` can observe it: a string, or anything
else. -/
inductive JVal where
  | str (s : String)
  | nonstr
deriving DecidableEq, Repr

/-- Parsed JSON object: association list of fields. -/
abbrev JObj := List (String × JVal)

/-- Outcome of one line of a JSONL file after strip()/json.loads. -/
inductive JsonLine where
  | blank
  | malformed
  | obj (o : JObj)
deriving DecidableEq, Repr

/-- `_iter_json_records` on a .jsonl file (ingest_service.py lines 61-71):
blank lines are skipped, malformed lines are logged and skipped, parsed
objects are yielded in order. -/
def iterJsonlRecords (lines : List JsonLine) : List JObj :=
  lines.filterMap (fun l => match l with | .obj o => some o | _ => none)

/-- Python dict .get on the parsed object. -/
def objGet (o : JObj) (k : String) : Option JVal :=
  (o.find? (fun p => p.1 == k)).map (fun p => p.2)

/-- `_pick(obj, keys)` (lines 87-92): first key whose value is a non-blank
string, stripped; otherwise the empty string. -/
def pick (o : JObj) : List String → String
  | [] => ""
  | k :: rest =>
    match objGet o k with
    | some (.str v) => if v.trim = "" then pick o rest else v.trim
    | _ => pick o rest

def idKeys : List String := ["id", "doc_id", "paperId", "uid", "uuid"]

def titleKeys : List String := ["title", "paper_title", "name"]

def abstractKeys : List String := ["abstract", "summary", "abstract_text", "text", "description"]

/-- `_map_record(obj)` (lines 95-100). -/
def mapRecord (o : JObj) : String × String × String :=
  (pick o idKeys, pick o titleKeys, pick o abstractKeys)

/-- The acceptance test of line 191: all of doc_id, title, abstract
non-blank after alias mapping. -/
def recordComplete (o : JObj) : Bool :=
  (mapRecord o).1 != "" && (mapRecord o).2.1 != "" && (mapRecord o).2.2 != ""

/-- `_zeros_embedding` (lines 48-49). -/
def zerosEmbedding (dim : ℕ) : List ℚ := List.replicate dim 0

/-- `_embedding_for` (lines 81-84); `hashEmb` abstracts the blake2b-based
`_hash_embedding`. -/
def embeddingFor (hashEmb : String → ℕ → List ℚ) (text : String) (mode : String)
    (dim : ℕ) : List ℚ :=
  if mode = "zeros" then zerosEmbedding dim else hashEmb text dim

/-- Row of the papers table. -/
structure PaperRow where
  doc_id : String
  title : String
  abstract : String
  embedding : List ℚ
deriving DecidableEq, Repr

/-- SQL `SELECT` by primary key: does the table hold this doc_id. -/
def storeHas (st : List PaperRow) (docId : String) : Bool :=
  st.any (fun r => r.doc_id == docId)

/-- One `INSERT ... ON CONFLICT (doc_id) DO UPDATE` (lines 107-118). -/
def storeUpsert (st : List PaperRow) (row : PaperRow) : List PaperRow :=
  if storeHas st row.doc_id then
    st.map (fun r => if r.doc_id == row.doc_id then row else r)
  else st ++ [row]

/-- One row of `_upsert_batch`: upsert, counting the row as inserted when
the key was fresh (`xmax = 0`), else as updated. -/
def upsertStep (acc : List PaperRow × ℕ × ℕ) (row : PaperRow) : List PaperRow × ℕ × ℕ :=
  if storeHas acc.1 row.doc_id then (storeUpsert acc.1 row, acc.2.1, acc.2.2 + 1)
  else (storeUpsert acc.1 row, acc.2.1 + 1, acc.2.2)

/-- `_upsert_batch` (lines 103-123): returns the new table and the
(inserted, updated) pair. -/
def upsertBatch (st : List PaperRow) (rows : List PaperRow) : List PaperRow × ℕ × ℕ :=
  rows.foldl upsertStep (st, 0, 0)

/-- Mutable state of the ingestion loop of `_perform_ingest`. -/
structure IngestState where
  store : List PaperRow
  batch : List PaperRow
  processed : ℕ
  inserted : ℕ
  updated : ℕ
  skipped : ℕ
deriving DecidableEq, Repr

/-- One iteration of the record loop (lines 189-205): skip and count
incomplete records, otherwise embed, buffer, count, and flush the batch
when it reaches batch_size. -/
def ingestStep (hashEmb : String → ℕ → List ℚ) (mode : String) (dim : ℕ)
    (batchSize : ℕ) (st : IngestState) (o : JObj) : IngestState :=
  if recordComplete o then
    let m := mapRecord o
    let emb := embeddingFor hashEmb m.2.2 mode dim
    let batch1 := st.batch ++ [⟨m.1, m.2.1, m.2.2, emb⟩]
    if batchSize ≤ batch1.length then
      let r := upsertBatch st.store batch1
      { store := r.1, batch := [], processed := st.processed + 1,
        inserted := st.inserted + r.2.1, updated := st.updated + r.2.2,
        skipped := st.skipped }
    else
      { st with batch := batch1, processed := st.processed + 1 }
  else
    { st with skipped := st.skipped + 1 }

/-- Errors `_perform_ingest` can raise before streaming records. -/
inductive IngestErr where
  | fileNotFound
  | invalidDim
deriving DecidableEq, Repr

/-- Result record built at lines 235-245 (the counters, the optional corpus
fingerprint, duplicates_found := rows_updated) plus the final table. -/
structure IngestOutcomeData where
  rows_processed : ℕ
  rows_inserted : ℕ
  rows_updated : ℕ
  rows_skipped : ℕ
  duplicates_found : ℕ
  fingerprint : Option String
  store : List PaperRow
deriving DecidableEq, Repr

/-- `_perform_ingest` (lines 171-245).  `fpFileHash` abstracts
`_fingerprint_file(data_path)`; `fileExists` the data-path check; `dim` the
configured embedding dimension (ValueError when non-positive). -/
def performIngest (hashEmb : String → ℕ → List ℚ) (fpFileHash : String)
    (fileExists : Bool) (dim : ℤ) (mode : String) (batchSize : ℕ)
    (updateFp : Bool) (lines : List JsonLine) (store0 : List PaperRow) :
    Except IngestErr IngestOutcomeData :=
  if fileExists = false then Except.error IngestErr.fileNotFound
  else if dim ≤ 0 then Except.error IngestErr.invalidDim
  else
    let st1 := (iterJsonlRecords lines).foldl
      (ingestStep hashEmb mode dim.toNat batchSize) ⟨store0, [], 0, 0, 0, 0⟩
    let st2 :=
      if st1.batch = [] then st1
      else
        let r := upsertBatch st1.store st1.batch
        { st1 with
          store := r.1
          batch := []
          inserted := st1.inserted + r.2.1
          updated := st1.updated + r.2.2 }
    Except.ok ⟨st2.processed, st2.inserted, st2.updated, st2.skipped, st2.updated,
      if updateFp then some fpFileHash else none, st2.store⟩

instance {ε α : Type} [DecidableEq ε] [DecidableEq α] : DecidableEq (Except ε α) :=
  fun a b =>
    match a, b with
    | Except.error e, Except.error f =>
      if h : e = f then isTrue (by rw [h])
      else isFalse (fun hc => h (Except.error.inj hc))
    | Except.error _, Except.ok _ => isFalse (fun hc => Except.noConfusion hc)
    | Except.ok _, Except.error _ => isFalse (fun hc => Except.noConfusion hc)
    | Except.ok a, Except.ok b =>
      if h : a = b then isTrue (by rw [h])
      else isFalse (fun hc => h (Except.ok.inj hc))

/-- Projection helpers over the fallible result, for closed statements. -/
def ingestProcessedOf (e : Except IngestErr IngestOutcomeData) : Option ℕ :=
  match e with
  | Except.ok o => some o.rows_processed
  | Except.error _ => none

def ingestSkippedOf (e : Except IngestErr IngestOutcomeData) : Option ℕ :=
  match e with
  | Except.ok o => some o.rows_skipped
  | Except.error _ => none

def ingestIsOk (e : Except IngestErr IngestOutcomeData) : Bool :=
  match e with
  | Except.ok _ => true
  | Except.error _ => false

lemma upsertBatch_counts_aux (rows : List PaperRow) :
    ∀ (s : List PaperRow) (i u : ℕ),
      (rows.foldl upsertStep (s, i, u)).2.1 + (rows.foldl upsertStep (s, i, u)).2.2
        = i + u + rows.length := by
  induction rows with
  | nil => intro s i u; simp
  | cons row rest ih =>
    intro s i u
    rw [List.foldl_cons]
    by_cases h : storeHas s row.doc_id = true
    · rw [upsertStep, if_pos h]
      have h2 := ih (storeUpsert s row) i (u + 1)
      simp only [List.length_cons]
      omega
    · rw [upsertStep, if_neg h]
      have h2 := ih (storeUpsert s row) (i + 1) u
      simp only [List.length_cons]
      omega

/-- Every row of a batch is counted exactly once, as inserted or as
updated. -/
lemma upsertBatch_counts (st : List PaperRow) (rows : List PaperRow) :
    (upsertBatch st rows).2.1 + (upsertBatch st rows).2.2 = rows.length := by
  have := upsertBatch_counts_aux rows st 0 0
  simpa [upsertBatch] using this

lemma length_filter_split {α : Type} (p : α → Bool) (l : List α) :
    l.length = (l.filter p).length + (l.filter (fun a => !p a)).length := by
  induction l with
  | nil => rfl
  | cons a l ih =>
    by_cases h : p a = true <;> simp [List.filter_cons, h, ih] <;> omega

/-- A complete record advances processed by one and (through the batch
buffer and its flushes) the inserted + updated + pending total by one; an
incomplete record only advances skipped. -/
lemma ingestStep_counts (hashEmb : String → ℕ → List ℚ) (mode : String) (dim bs : ℕ)
    (st : IngestState) (o : JObj) :
    (recordComplete o = true →
      (ingestStep hashEmb mode dim bs st o).processed = st.processed + 1 ∧
      (ingestStep hashEmb mode dim bs st o).skipped = st.skipped ∧
      (ingestStep hashEmb mode dim bs st o).inserted
          + (ingestStep hashEmb mode dim bs st o).updated
          + (ingestStep hashEmb mode dim bs st o).batch.length
        = st.inserted + st.updated + st.batch.length + 1) ∧
    (recordComplete o = false →
      ingestStep hashEmb mode dim bs st o = { st with skipped := st.skipped + 1 }) := by
  constructor
  · intro h
    simp only [ingestStep, if_pos h]
    split
    · refine ⟨rfl, rfl, ?_⟩
      have hc := upsertBatch_counts st.store (st.batch ++
        [⟨(mapRecord o).1, (mapRecord o).2.1, (mapRecord o).2.2,
          embeddingFor hashEmb (mapRecord o).2.2 mode dim⟩])
      simp only [List.length_append, List.length_cons, List.length_nil] at hc ⊢
      omega
    · refine ⟨rfl, rfl, ?_⟩
      simp only [List.length_append, List.length_cons, List.length_nil]
      omega
  · intro h
    rw [ingestStep, if_neg (by simp [h])]

/-- Loop invariant of the record loop: processed counts the complete
records, skipped the incomplete ones, and inserted + updated + pending
batch rows track the processed count. -/
lemma ingestLoop_counts (hashEmb : String → ℕ → List ℚ) (mode : String) (dim bs : ℕ)
    (recs : List JObj) :
    ∀ st : IngestState,
      (recs.foldl (ingestStep hashEmb mode dim bs) st).processed
          = st.processed + (recs.filter recordComplete).length ∧
      (recs.foldl (ingestStep hashEmb mode dim bs) st).skipped
          = st.skipped + (recs.filter (fun o => !recordComplete o)).length ∧
      (recs.foldl (ingestStep hashEmb mode dim bs) st).inserted
            + (recs.foldl (ingestStep hashEmb mode dim bs) st).updated
            + (recs.foldl (ingestStep hashEmb mode dim bs) st).batch.length
          = st.inserted + st.updated + st.batch.length
            + (recs.filter recordComplete).length := by
  induction recs with
  | nil => intro st; simp
  | cons o rest ih =>
    intro st
    rw [List.foldl_cons]
    by_cases h : recordComplete o = true
    · obtain ⟨hp, hs, hi⟩ := (ingestStep_counts hashEmb mode dim bs st o).1 h
      obtain ⟨ihp, ihs, ihi⟩ := ih (ingestStep hashEmb mode dim bs st o)
      rw [List.filter_cons_of_pos h]
      refine ⟨?_, ?_, ?_⟩
      · rw [ihp, hp, List.length_cons]; omega
      · rw [ihs, hs, List.filter_cons_of_neg (by simp [h])]
      · rw [ihi, List.length_cons]; omega
    · have hb : recordComplete o = false := by
        revert h; cases recordComplete o <;> simp
      have hstep := (ingestStep_counts hashEmb mode dim bs st o).2 hb
      obtain ⟨ihp, ihs, ihi⟩ := ih (ingestStep hashEmb mode dim bs st o)
      rw [List.filter_cons_of_neg (by simp [hb]),
        List.filter_cons_of_pos (by simp [hb])]
      refine ⟨?_, ?_, ?_⟩
      · rw [ihp, hstep]
      · rw [ihs, hstep, List.length_cons]
        have hpr : ({ st with skipped := st.skipped + 1 } : IngestState).skipped
            = st.skipped + 1 := rfl
        rw [hpr]
        omega
      · rw [ihi, hstep]

/-- Counter laws of a completed `_perform_ingest` run. -/
lemma performIngest_counts (hashEmb : String → ℕ → List ℚ) (fpH : String) (dim : ℤ)
    (mode : String) (bs : ℕ) (updateFp : Bool) (lines : List JsonLine)
    (store0 : List PaperRow) (hdim : 0 < dim) :
    ∀ out, performIngest hashEmb fpH true dim mode bs updateFp lines store0 = Except.ok out →
      out.rows_processed = out.rows_inserted + out.rows_updated ∧
      out.rows_processed = ((iterJsonlRecords lines).filter recordComplete).length ∧
      out.rows_skipped = ((iterJsonlRecords lines).filter (fun o => !recordComplete o)).length ∧
      (iterJsonlRecords lines).length = out.rows_processed + out.rows_skipped ∧
      out.duplicates_found = out.rows_updated := by
  intro out hout
  simp only [performIngest] at hout
  rw [if_neg (by simp), if_neg (by omega)] at hout
  obtain ⟨hp, hs, hi⟩ := ingestLoop_counts hashEmb mode dim.toNat bs
    (iterJsonlRecords lines) ⟨store0, [], 0, 0, 0, 0⟩
  set st1 := (iterJsonlRecords lines).foldl
    (ingestStep hashEmb mode dim.toNat bs) ⟨store0, [], 0, 0, 0, 0⟩ with hst1
  have hsplit := length_filter_split recordComplete (iterJsonlRecords lines)
  simp only [List.length_nil] at hp hs hi
  by_cases hb : st1.batch = []
  · rw [if_pos hb] at hout
    injection hout with hout
    subst hout
    have hb0 : st1.batch.length = 0 := by rw [hb]; rfl
    refine ⟨?_, ?_, ?_, ?_, rfl⟩ <;> (dsimp only; omega)
  · rw [if_neg hb] at hout
    injection hout with hout
    subst hout
    have hub := upsertBatch_counts st1.store st1.batch
    refine ⟨?_, ?_, ?_, ?_, rfl⟩ <;> (dsimp only; omega)

/-- A run on an existing data file with a positive embedding dimension
completes without aborting. -/
lemma performIngest_isOk (hashEmb : String → ℕ → List ℚ) (fpH : String) (dim : ℤ)
    (mode : String) (bs : ℕ) (updateFp : Bool) (lines : List JsonLine)
    (store0 : List PaperRow) (hdim : 0 < dim) :
    ingestIsOk (performIngest hashEmb fpH true dim mode bs updateFp lines store0) = true := by
  simp only [performIngest]
  rw [if_neg (by simp), if_neg (by omega)]
  rfl

/-- Malformed lines are invisible to the record stream. -/
lemma iterJsonl_malformed (l₁ l₂ : List JsonLine) :
    iterJsonlRecords (l₁ ++ JsonLine.malformed :: l₂) = iterJsonlRecords (l₁ ++ l₂) := by
  simp [iterJsonlRecords, List.filterMap_append, List.filterMap_cons]

/-- Complete records used in the ingestion examples. -/
def goodObjA : JObj := [("id", JVal.str "a"), ("title", JVal.str "A"), ("abstract", JVal.str "aa")]

def goodObjB : JObj := [("id", JVal.str "b"), ("title", JVal.str "B"), ("abstract", JVal.str "bb")]

/-- A record missing doc_id and abstract. -/
def incompleteObj : JObj := [("title", JVal.str "T")]

/-- Same doc_id as goodObjA with a different title (an upsert duplicate). -/
def goodObjA2 : JObj := [("id", JVal.str "a"), ("title", JVal.str "A2"), ("abstract", JVal.str "a2")]

/-- One malformed JSON line among N = 2 valid, complete records. -/
def exampleLinesC4 : List JsonLine :=
  [JsonLine.obj goodObjA, JsonLine.malformed, JsonLine.obj goodObjB]

/-- Claim C4, counterexample: on a file with one malformed line among two
valid complete records, ingestion completes with rows_processed = 2 but the
malformed line is only logged: the skipped counter stays 0, not 1
(rows_skipped counts only records missing required fields, lines 190-195;
`_iter_json_records` lines 67-71 drops bad lines without counting). -/
theorem C4_skip_count_counterexample :
    ingestIsOk (performIngest (fun _ _ => [0]) "fp" true 1 "hash" 256 true
      exampleLinesC4 []) = true ∧
    ingestProcessedOf (performIngest (fun _ _ => [0]) "fp" true 1 "hash" 256 true
      exampleLinesC4 []) = some 2 ∧
    ingestSkippedOf (performIngest (fun _ _ => [0]) "fp" true 1 "hash" 256 true
      exampleLinesC4 []) = some 0 ∧
    ingestSkippedOf (performIngest (fun _ _ => [0]) "fp" true 1 "hash" 256 true
      exampleLinesC4 []) ≠ some 1 := by
  refine ⟨?_, ?_, ?_, ?_⟩ <;> with_unfolding_all decide

/-- Claim C4 (amended): a malformed JSON line among N valid complete
records leaves the whole run unchanged (it is skipped after logging, never
fatal), ingestion completes with rows_processed = N, and the malformed line
is counted nowhere: rows_skipped is 0 (it counts only records missing
required fields). -/
theorem C4_malformed_amended (hashEmb : String → ℕ → List ℚ) (fpH : String) (dim : ℤ)
    (mode : String) (bs : ℕ) (updateFp : Bool) (l₁ l₂ : List JsonLine)
    (store0 : List PaperRow) (hdim : 0 < dim)
    (hall : ∀ o ∈ iterJsonlRecords (l₁ ++ l₂), recordComplete o = true) :
    performIngest hashEmb fpH true dim mode bs updateFp
        (l₁ ++ JsonLine.malformed :: l₂) store0
      = performIngest hashEmb fpH true dim mode bs updateFp (l₁ ++ l₂) store0 ∧
    ingestIsOk (performIngest hashEmb fpH true dim mode bs updateFp
      (l₁ ++ JsonLine.malformed :: l₂) store0) = true ∧
    ingestProcessedOf (performIngest hashEmb fpH true dim mode bs updateFp
        (l₁ ++ JsonLine.malformed :: l₂) store0)
      = some (iterJsonlRecords (l₁ ++ l₂)).length ∧
    ingestSkippedOf (performIngest hashEmb fpH true dim mode bs updateFp
        (l₁ ++ JsonLine.malformed :: l₂) store0) = some 0 := by
  have hrec := iterJsonl_malformed l₁ l₂
  have heqrun : performIngest hashEmb fpH true dim mode bs updateFp
        (l₁ ++ JsonLine.malformed :: l₂) store0
      = performIngest hashEmb fpH true dim mode bs updateFp (l₁ ++ l₂) store0 := by
    simp only [performIngest, hrec]
  have hok := performIngest_isOk hashEmb fpH dim mode bs updateFp
    (l₁ ++ JsonLine.malformed :: l₂) store0 hdim
  refine ⟨heqrun, hok, ?_, ?_⟩ <;>
  · rcases hperf : performIngest hashEmb fpH true dim mode bs updateFp
        (l₁ ++ JsonLine.malformed :: l₂) store0 with e | out
    · rw [hperf] at hok; exact absurd hok (by simp [ingestIsOk])
    · obtain ⟨_, hproc, hskip, _, _⟩ := performIngest_counts hashEmb fpH dim mode bs
        updateFp (l₁ ++ JsonLine.malformed :: l₂) store0 hdim out hperf
      rw [hrec] at hproc hskip
      simp only [ingestProcessedOf, ingestSkippedOf]
      first
        | (rw [hproc, List.filter_eq_self.mpr hall])
        | (rw [hskip, List.filter_eq_nil_iff.mpr (by intro a ha; simp [hall a ha])]; rfl)

/-- Claim C4 (amended), witness: one malformed line between two complete
records. -/
theorem C4_malformed_amended_witness :
    performIngest (fun _ _ => [0]) "fp" true 1 "hash" 256 true
        ([JsonLine.obj goodObjA] ++ JsonLine.malformed :: [JsonLine.obj goodObjB]) []
      = performIngest (fun _ _ => [0]) "fp" true 1 "hash" 256 true
        ([JsonLine.obj goodObjA] ++ [JsonLine.obj goodObjB]) [] ∧
    ingestSkippedOf (performIngest (fun _ _ => [0]) "fp" true 1 "hash" 256 true
        ([JsonLine.obj goodObjA] ++ JsonLine.malformed :: [JsonLine.obj goodObjB]) [])
      = some 0 := by
  have h := C4_malformed_amended (fun _ _ => [0]) "fp" 1 "hash" 256 true
    [JsonLine.obj goodObjA] [JsonLine.obj goodObjB] [] (by omega)
    (by with_unfolding_all decide)
  exact ⟨h.1, h.2.2.2⟩

/-- Bulk file of the claim C10 witness: two fresh records, one incomplete
record, one duplicate doc_id. -/
def exampleLinesC10 : List JsonLine :=
  [JsonLine.obj goodObjA, JsonLine.obj incompleteObj,
   JsonLine.obj goodObjA2, JsonLine.obj goodObjB]

def hashEmbW : String → ℕ → List ℚ := fun _ _ => [0]

/-- Result of ingesting exampleLinesC10 with batch size 2. -/
def outC10 : IngestOutcomeData :=
  ⟨3, 2, 1, 1, 1, some "fp", [⟨"a", "A2", "a2", [0]⟩, ⟨"b", "B", "bb", [0]⟩]⟩

/-- Claim C10: every normally-returning ingestion run satisfies
rows_processed = rows_inserted + rows_updated; every parsed record is
counted in rows_processed or in rows_skipped, skipped exactly when doc_id,
title or abstract is missing or blank after alias mapping (recordComplete);
and duplicates_found equals rows_updated. -/
theorem C10_ingest_counters (hashEmb : String → ℕ → List ℚ) (fpH : String) (dim : ℤ)
    (mode : String) (bs : ℕ) (updateFp : Bool) (lines : List JsonLine)
    (store0 : List PaperRow) (hdim : 0 < dim) :
    ∀ out, performIngest hashEmb fpH true dim mode bs updateFp lines store0 = Except.ok out →
      out.rows_processed = out.rows_inserted + out.rows_updated ∧
      out.rows_processed = ((iterJsonlRecords lines).filter recordComplete).length ∧
      out.rows_skipped = ((iterJsonlRecords lines).filter (fun o => !recordComplete o)).length ∧
      (iterJsonlRecords lines).length = out.rows_processed + out.rows_skipped ∧
      out.duplicates_found = out.rows_updated :=
  performIngest_counts hashEmb fpH dim mode bs updateFp lines store0 hdim

/-- Claim C10, witness: the counter laws at a concrete run over four
records (one incomplete, one duplicate doc_id) with batch size 2. -/
theorem C10_ingest_counters_witness :
    outC10.rows_processed = outC10.rows_inserted + outC10.rows_updated ∧
    outC10.duplicates_found = outC10.rows_updated ∧
    (iterJsonlRecords exampleLinesC10).length
      = outC10.rows_processed + outC10.rows_skipped := by
  have h := C10_ingest_counters hashEmbW "fp" 1 "hash" 2 true exampleLinesC10 []
    (by omega) outC10 (by with_unfolding_all decide)
  exact ⟨h.1, h.2.2.2.2, h.2.2.2.1⟩

/-! ## Claim C6: retry policy of ingest_json_service (ingest_service.py 129-165)

One attempt = one full `_perform_ingest` call; its outcome (success, or the
exception class psycopg raises) is a function of the attempt number, and
`closedAfter i` tells whether the AdminShutdown of attempt i left the
connection flagged closed (environment-dependent).  The loop model records
the result, every `time.sleep` duration, the number of attempts run, and
how often a closed connection was replaced by a fresh one. -/

/-- Exception classes distinguished by the except clauses of lines 145-163. -/
inductive AttemptErr where
  | adminShutdown
  | operationalClosed
  | operationalOther
  | otherErr
deriving DecidableEq, Repr

/-- Outcome of one `_perform_ingest` attempt. -/
inductive AttemptOut (α : Type) where
  | ok (a : α)
  | fail (e : AttemptErr)
deriving DecidableEq, Repr

/-- What `ingest_json_service` can raise to its caller. -/
inductive IngFailure where
  | opOther
  | other
  | exhausted
deriving DecidableEq, Repr

/-- Observable trace of one `ingest_json_service` call. -/
structure RunLog (α : Type) where
  result : Except IngFailure α
  sleeps : List ℕ
  attemptsRun : ℕ
  reacquisitions : ℕ
deriving DecidableEq, Repr

/-- The `for attempt in range(3)` loop (lines 134-165): a closed connection
is replaced at the top of the body; AdminShutdown sleeps 5s and retries;
an OperationalError with a closed connection sleeps 5s, re-acquires and
retries; any other OperationalError and any other exception propagate
immediately; running out of attempts raises the terminal RuntimeError. -/
def retryLoop {α : Type} (outcome : ℕ → AttemptOut α) (closedAfter : ℕ → Bool) :
    List ℕ → Bool → RunLog α
  | [], _ => ⟨Except.error IngFailure.exhausted, [], 0, 0⟩
  | i :: rest, connClosed =>
    let reacq := if connClosed then 1 else 0
    match outcome i with
    | AttemptOut.ok a => ⟨Except.ok a, [], 1, reacq⟩
    | AttemptOut.fail AttemptErr.adminShutdown =>
      let r := retryLoop outcome closedAfter rest (closedAfter i)
      ⟨r.result, 5 :: r.sleeps, r.attemptsRun + 1, reacq + r.reacquisitions⟩
    | AttemptOut.fail AttemptErr.operationalClosed =>
      let r := retryLoop outcome closedAfter rest false
      ⟨r.result, 5 :: r.sleeps, r.attemptsRun + 1, (reacq + 1) + r.reacquisitions⟩
    | AttemptOut.fail AttemptErr.operationalOther =>
      ⟨Except.error IngFailure.opOther, [], 1, reacq⟩
    | AttemptOut.fail AttemptErr.otherErr =>
      ⟨Except.error IngFailure.other, [], 1, reacq⟩

/-- `ingest_json_service(request, conn)`. -/
def ingestJsonService {α : Type} (outcome : ℕ → AttemptOut α) (closedAfter : ℕ → Bool)
    (connClosed0 : Bool) : RunLog α :=
  retryLoop outcome closedAfter [0, 1, 2] connClosed0

/-- The two retried (transient) classes: database restart (AdminShutdown)
and an OperationalError whose message marks the connection closed. -/
def TransientOut {α : Type} (o : AttemptOut α) : Prop :=
  o = AttemptOut.fail AttemptErr.adminShutdown ∨
  o = AttemptOut.fail AttemptErr.operationalClosed

instance {α : Type} [DecidableEq α] (o : AttemptOut α) : Decidable (TransientOut o) := by
  unfold TransientOut; infer_instance

lemma retryLoop_sleeps_bound {α : Type} (outcome : ℕ → AttemptOut α)
    (closedAfter : ℕ → Bool) :
    ∀ (idxs : List ℕ) (c : Bool),
      (∀ s ∈ (retryLoop outcome closedAfter idxs c).sleeps, s = 5) ∧
      (retryLoop outcome closedAfter idxs c).attemptsRun ≤ idxs.length := by
  intro idxs
  induction idxs with
  | nil => intro c; simp [retryLoop]
  | cons i rest ih =>
    intro c
    rcases ho : outcome i with a | e
    · simp [retryLoop, ho]
    · cases e
      · have := ih (closedAfter i)
        simp only [retryLoop, ho]
        constructor
        · intro s hs
          rw [List.mem_cons] at hs
          rcases hs with hs | hs
          · exact hs
          · exact (this.1) s hs
        · simp only [List.length_cons]
          omega
      · have := ih false
        simp only [retryLoop, ho]
        constructor
        · intro s hs
          rw [List.mem_cons] at hs
          rcases hs with hs | hs
          · exact hs
          · exact (this.1) s hs
        · simp only [List.length_cons]
          omega
      · simp [retryLoop, ho]
      · simp [retryLoop, ho]

/-- Claim C6: transient failures (database restart, closed connection) are
retried with a fixed 5 second delay, a success or non-transient error at
attempt j (after a transient prefix) ends the call after exactly j + 1
attempts with j sleeps — non-transient OperationalErrors and all other
exceptions propagate immediately with no further attempt — and three
transient attempts exhaust the budget and raise the terminal error; at most
3 attempts ever run and every delay is exactly 5 seconds. -/
theorem C6_retry_policy (α : Type) (outcome : ℕ → AttemptOut α)
    (closedAfter : ℕ → Bool) (c0 : Bool) :
    (∀ j a, j < 3 → (∀ i, i < j → TransientOut (outcome i)) →
      outcome j = AttemptOut.ok a →
      (ingestJsonService outcome closedAfter c0).result = Except.ok a ∧
      (ingestJsonService outcome closedAfter c0).sleeps = List.replicate j 5 ∧
      (ingestJsonService outcome closedAfter c0).attemptsRun = j + 1) ∧
    (∀ j, j < 3 → (∀ i, i < j → TransientOut (outcome i)) →
      outcome j = AttemptOut.fail AttemptErr.operationalOther →
      (ingestJsonService outcome closedAfter c0).result = Except.error IngFailure.opOther ∧
      (ingestJsonService outcome closedAfter c0).sleeps = List.replicate j 5 ∧
      (ingestJsonService outcome closedAfter c0).attemptsRun = j + 1) ∧
    (∀ j, j < 3 → (∀ i, i < j → TransientOut (outcome i)) →
      outcome j = AttemptOut.fail AttemptErr.otherErr →
      (ingestJsonService outcome closedAfter c0).result = Except.error IngFailure.other ∧
      (ingestJsonService outcome closedAfter c0).sleeps = List.replicate j 5 ∧
      (ingestJsonService outcome closedAfter c0).attemptsRun = j + 1) ∧
    ((∀ i, i < 3 → TransientOut (outcome i)) →
      (ingestJsonService outcome closedAfter c0).result
          = Except.error IngFailure.exhausted ∧
      (ingestJsonService outcome closedAfter c0).sleeps = [5, 5, 5] ∧
      (ingestJsonService outcome closedAfter c0).attemptsRun = 3) ∧
    (∀ s ∈ (ingestJsonService outcome closedAfter c0).sleeps, s = 5) ∧
    (ingestJsonService outcome closedAfter c0).attemptsRun ≤ 3 := by
  have hb := retryLoop_sleeps_bound outcome closedAfter [0, 1, 2] c0
  refine ⟨?_, ?_, ?_, ?_, hb.1, hb.2⟩
  · intro j a hj htrans hout
    interval_cases j
    · simp [ingestJsonService, retryLoop, hout]
    · rcases htrans 0 (by omega) with h0 | h0 <;>
        simp [ingestJsonService, retryLoop, h0, hout, List.replicate]
    · rcases htrans 0 (by omega) with h0 | h0 <;>
        rcases htrans 1 (by omega) with h1 | h1 <;>
        simp [ingestJsonService, retryLoop, h0, h1, hout, List.replicate]
  · intro j hj htrans hout
    interval_cases j
    · simp [ingestJsonService, retryLoop, hout]
    · rcases htrans 0 (by omega) with h0 | h0 <;>
        simp [ingestJsonService, retryLoop, h0, hout, List.replicate]
    · rcases htrans 0 (by omega) with h0 | h0 <;>
        rcases htrans 1 (by omega) with h1 | h1 <;>
        simp [ingestJsonService, retryLoop, h0, h1, hout, List.replicate]
  · intro j hj htrans hout
    interval_cases j
    · simp [ingestJsonService, retryLoop, hout]
    · rcases htrans 0 (by omega) with h0 | h0 <;>
        simp [ingestJsonService, retryLoop, h0, hout, List.replicate]
    · rcases htrans 0 (by omega) with h0 | h0 <;>
        rcases htrans 1 (by omega) with h1 | h1 <;>
        simp [ingestJsonService, retryLoop, h0, h1, hout, List.replicate]
  · intro htrans
    rcases htrans 0 (by omega) with h0 | h0 <;>
      rcases htrans 1 (by omega) with h1 | h1 <;>
      rcases htrans 2 (by omega) with h2 | h2 <;>
      simp [ingestJsonService, retryLoop, h0, h1, h2]

/-- Attempt schedule of the claim C6 witness: a closed-connection failure
on the first attempt, success on the second. -/
def outcomeW : ℕ → AttemptOut ℕ :=
  fun i => if i = 0 then AttemptOut.fail AttemptErr.operationalClosed else AttemptOut.ok 7

/-- Claim C6, witness: one transient failure then success means one 5s
sleep, two attempts, and the successful result. -/
theorem C6_retry_policy_witness :
    (ingestJsonService outcomeW (fun _ => false) false).result = Except.ok 7 ∧
    (ingestJsonService outcomeW (fun _ => false) false).sleeps = [5] ∧
    (ingestJsonService outcomeW (fun _ => false) false).attemptsRun = 2 := by
  have h := (C6_retry_policy ℕ outcomeW (fun _ => false) false).1 1 7
    (by omega) (by intro i hi; interval_cases i; exact Or.inr rfl) rfl
  exact ⟨h.1, h.2.1, h.2.2⟩

/-! ## Claim C7: QAService.answer (qa_service.py 107-156)

The collaborators of the pipeline enter as an environment of fallible
functions: embedder.embed and index.search can raise (modelled as
Except.error, e.g. the assert of an unbuilt BasicNumpyIndex), store.get
raises on a bad row (modelled as Option.none, caught per row at lines
42-47), and generator.generate can raise (caught at lines 136-144). -/

structure QAEnv where
  embed : String → Except String (List ℚ)
  search : List ℚ → ℕ → Except String (List (ℕ × ℚ))
  storeGet : ℕ → Option Document
  generate : String → List String → String → Except String String

/-- Fallback message of qa_service.py lines 18-21 (ASCII rendering). -/
def DEFAULT_FALLBACK : String :=
  "No relevant passages were strongly matched, but here is the best possible answer based on the available database context."

/-- Hydration loop of QARetriever.retrieve (lines 41-47): each returned
(row, score) is looked up in the store; failing rows are logged and
dropped, and hits and contexts are appended pairwise. -/
def hydratePairs (storeGet : ℕ → Option Document) (results : List (ℕ × ℚ)) :
    List (Hit × String) :=
  results.filterMap (fun p =>
    (storeGet p.1).map (fun d => (Hit.mk d.doc_id d.title p.2 d.text, d.text)))

/-- QARetriever.retrieve (lines 35-51).  embed and search are NOT inside a
try block: their exceptions propagate. -/
def qaRetrieve (env : QAEnv) (query : String) (k : ℕ) : Except String RetrievalResult :=
  match env.embed query with
  | Except.error e => Except.error e
  | Except.ok qv =>
    match env.search qv k with
    | Except.error e => Except.error e
    | Except.ok results =>
      Except.ok ⟨(hydratePairs env.storeGet results).map (fun p => p.1),
        (hydratePairs env.storeGet results).map (fun p => p.2)⟩

/-- Context text construction of answer steps 1-2 (lines 121-128). -/
def contextsFor (minSim : ℚ) (citeTopK : ℕ) (hits : List Hit) : List String :=
  let selected := selectStrong minSim citeTopK hits
  let ct := selected.map (fun h => h.chunk)
  if ct = [] then [DEFAULT_FALLBACK] else ct

/-- QAService.answer (lines 107-156): retrieve, short-circuit on zero hits,
select contexts adaptively, generate with fallback on exception, fall back
on blank text, and package the stripped answer with citations. -/
def qaAnswer (env : QAEnv) (minSim : ℚ) (citeTopK : ℕ) (query : String) (k : ℕ) :
    Except String Answer :=
  match qaRetrieve env query k with
  | Except.error e => Except.error e
  | Except.ok rr =>
    if rr.hits = [] then
      Except.ok ⟨"No relevant passages were found in the database.", [], []⟩
    else
      let selected := selectStrong minSim citeTopK rr.hits
      let answerText :=
        match env.generate query (contextsFor minSim citeTopK rr.hits) "doc_id + title" with
        | Except.ok t => t
        | Except.error _ => DEFAULT_FALLBACK
      let answerText2 := if answerText.trim = "" then DEFAULT_FALLBACK else answerText
      Except.ok ⟨answerText2.trim, selected, selected.map (fun h => h.chunk)⟩

/-- Projection for closed statements about the produced answer text. -/
def answerTextOf (e : Except String Answer) : Option String :=
  match e with
  | Except.ok a => some a.text
  | Except.error _ => none

set_option maxRecDepth 4000 in
lemma fallback_trim : DEFAULT_FALLBACK.trim = DEFAULT_FALLBACK := by
  with_unfolding_all decide

/-- Environment whose index search raises (an unbuilt BasicNumpyIndex). -/
def qaEnvRaises : QAEnv :=
  { embed := fun _ => Except.ok [1],
    search := fun _ _ => Except.error "Index not built/loaded",
    storeGet := fun _ => none,
    generate := fun _ _ _ => Except.ok "hi" }

/-- Claim C7, counterexample: retrieval failures are not caught — when the
index search raises (search before build, qa_service.py line 38 outside any
try), QAService.answer propagates the exception to its caller. -/
theorem C7_raise_counterexample :
    qaAnswer qaEnvRaises (1/20) 5 "q" 8
      = Except.error "Index not built/loaded" := rfl

/-- Claim C7 (amended): provided the embedding and index-search steps
return normally, answer never raises: zero hydrated hits short-circuit to
the fixed no-results answer with empty citations and contexts without
invoking the generator (the result is the same for every generator); a
generator exception or blank generated text is replaced by the fixed
fallback message. -/
theorem C7_answer_amended (env : QAEnv) (minSim : ℚ) (citeTopK : ℕ) (query : String)
    (k : ℕ) (qv : List ℚ) (rs : List (ℕ × ℚ))
    (hembed : env.embed query = Except.ok qv)
    (hsearch : env.search qv k = Except.ok rs) :
    (∀ e, qaAnswer env minSim citeTopK query k ≠ Except.error e) ∧
    ((hydratePairs env.storeGet rs).map (fun p => p.1) = [] →
      ∀ g, qaAnswer { env with generate := g } minSim citeTopK query k
        = Except.ok ⟨"No relevant passages were found in the database.", [], []⟩) ∧
    ((hydratePairs env.storeGet rs).map (fun p => p.1) ≠ [] →
      (∀ e, env.generate query
          (contextsFor minSim citeTopK ((hydratePairs env.storeGet rs).map (fun p => p.1)))
          "doc_id + title" = Except.error e →
        answerTextOf (qaAnswer env minSim citeTopK query k) = some DEFAULT_FALLBACK) ∧
      (∀ t, env.generate query
          (contextsFor minSim citeTopK ((hydratePairs env.storeGet rs).map (fun p => p.1)))
          "doc_id + title" = Except.ok t → t.trim = "" →
        answerTextOf (qaAnswer env minSim citeTopK query k) = some DEFAULT_FALLBACK)) := by
  have hretr : qaRetrieve env query k
      = Except.ok ⟨(hydratePairs env.storeGet rs).map (fun p => p.1),
          (hydratePairs env.storeGet rs).map (fun p => p.2)⟩ := by
    simp only [qaRetrieve, hembed, hsearch]
  refine ⟨?_, ?_, ?_⟩
  · intro e
    simp only [qaAnswer, hretr]
    split
    · exact fun hcon => Except.noConfusion hcon
    · exact fun hcon => Except.noConfusion hcon
  · intro hh g
    have hretr2 : qaRetrieve { env with generate := g } query k
        = Except.ok ⟨(hydratePairs env.storeGet rs).map (fun p => p.1),
            (hydratePairs env.storeGet rs).map (fun p => p.2)⟩ := by
      simp only [qaRetrieve, hembed, hsearch]
    simp only [qaAnswer, hretr2, hh, eq_self_iff_true, if_true]
  · intro hh
    constructor
    · intro e hgen
      simp only [qaAnswer, hretr, if_neg hh, hgen]
      rw [if_neg (show ¬ (DEFAULT_FALLBACK.trim = "") by
        rw [fallback_trim]; with_unfolding_all decide)]
      simp only [answerTextOf, fallback_trim]
    · intro t hgen htrim
      have hcond : (if t.trim = "" then DEFAULT_FALLBACK else t) = DEFAULT_FALLBACK := by
        rw [if_pos htrim]
      simp only [qaAnswer, hretr, if_neg hh, hgen, hcond, answerTextOf, fallback_trim]

/-- Environment for the claim C7 witness: one retrievable document, a
generator that always raises. -/
def qaEnvW : QAEnv :=
  { embed := fun _ => Except.ok [1],
    search := fun _ _ => Except.ok [(0, 9/10)],
    storeGet := fun i => if i = 0 then some ⟨"d1", "t1", "text one"⟩ else none,
    generate := fun _ _ _ => Except.error "boom" }

/-- Claim C7 (amended), witness: with a working retrieval path and a raising
generator, answer returns normally with the fallback text. -/
theorem C7_answer_amended_witness :
    (∀ e, qaAnswer qaEnvW (1/20) 5 "q" 8 ≠ Except.error e) ∧
    answerTextOf (qaAnswer qaEnvW (1/20) 5 "q" 8) = some DEFAULT_FALLBACK := by
  have h := C7_answer_amended qaEnvW (1/20) 5 "q" 8 [1] [(0, 9/10)] rfl rfl
  refine ⟨h.1, ?_⟩
  exact (h.2.2 (by with_unfolding_all decide)).1 "boom" rfl

/-! ## Claim C8: FileFingerprint.fingerprint (file_fingerprint.py 21-26)

The fingerprint is sha256(json.dumps(dict(data_fp = sha256(file bytes),
embedder_meta = meta), sort_keys)).  The two sha256 applications (composed
with the injective json.dumps serialization) are abstracted as function
parameters over naturals; the claimed separation property is exactly their
collision-freeness, so it is proved under injectivity hypotheses and
witnessed with concrete injective encodings. -/

/-- Embedder configuration dict wired in container.py lines 103-112. -/
structure EmbedderMeta where
  dim : ℕ
  model : String
  embedMode : String
  chunkLen : ℕ
deriving DecidableEq, Repr

/-- FileFingerprint.fingerprint: hash of the file-content hash combined
with the embedder configuration. -/
def fileFingerprint (shaFile : List ℕ → ℕ) (shaCombo : ℕ × EmbedderMeta → ℕ)
    (content : List ℕ) (meta : EmbedderMeta) : ℕ :=
  shaCombo (shaFile content, meta)

/-- Claim C8: fingerprint is deterministic — equal file content and equal
embedder configuration give the same hash — and (collision-freeness of the
hash steps) any difference in the content or in the configuration, in
particular in its dimension or model identifier, changes the hash. -/
theorem C8_fingerprint_det (shaFile : List ℕ → ℕ) (shaCombo : ℕ × EmbedderMeta → ℕ)
    (h1 : Function.Injective shaFile) (h2 : Function.Injective shaCombo)
    (c c2 : List ℕ) (m m2 : EmbedderMeta) :
    (c = c2 → m = m2 →
      fileFingerprint shaFile shaCombo c m = fileFingerprint shaFile shaCombo c2 m2) ∧
    (c ≠ c2 ∨ m ≠ m2 →
      fileFingerprint shaFile shaCombo c m ≠ fileFingerprint shaFile shaCombo c2 m2) := by
  constructor
  · intro hc hm
    rw [hc, hm]
  · intro hne hcon
    have hpair := h2 hcon
    rcases hne with hne | hne
    · exact hne (h1 (congrArg Prod.fst hpair))
    · exact hne (congrArg Prod.snd hpair)

/-- Injective stand-in for a digest of a string. -/
def strCode (s : String) : ℕ := Encodable.encode (s.toList.map Char.toNat)

lemma strCode_injective : Function.Injective strCode := by
  intro a b h
  have h1 := Encodable.encode_injective h
  have hchar : Function.Injective Char.toNat := StrictMono.injective fun _ _ hab => hab
  have h2 : a.toList = b.toList := List.map_injective_iff.mpr hchar h1
  cases a
  cases b
  exact congrArg String.mk (by simpa [String.toList] using h2)

/-- Injective stand-in for the sha256 of the file content. -/
def shaFileW : List ℕ → ℕ := fun l => Encodable.encode l

/-- Injective stand-in for sha256 composed with the sorted-keys json dump
of the two-field dict. -/
def shaComboW : ℕ × EmbedderMeta → ℕ :=
  fun p => Encodable.encode (p.1, p.2.dim, strCode p.2.model, strCode p.2.embedMode, p.2.chunkLen)

lemma shaFileW_injective : Function.Injective shaFileW :=
  fun _ _ h => Encodable.encode_injective h

lemma shaComboW_injective : Function.Injective shaComboW := by
  intro p q h
  obtain ⟨p1, pd, pmo, pme, pc⟩ := p
  obtain ⟨q1, qd, qmo, qme, qc⟩ := q
  have h1 := Encodable.encode_injective h
  simp only [Prod.mk.injEq] at h1
  obtain ⟨h1a, h1b, h1c, h1d, h1e⟩ := h1
  simp only [Prod.mk.injEq, EmbedderMeta.mk.injEq]
  exact ⟨h1a, h1b, strCode_injective h1c, strCode_injective h1d, h1e⟩

/-- Claim C8, witness: with concrete injective digests, the fingerprint is
equal on equal inputs and differs when the file content, the dimension, or
the model identifier changes. -/
theorem C8_fingerprint_det_witness :
    fileFingerprint shaFileW shaComboW [0] ⟨768, "nomic-embed-text", "ollama", 0⟩
      = fileFingerprint shaFileW shaComboW [0] ⟨768, "nomic-embed-text", "ollama", 0⟩ ∧
    fileFingerprint shaFileW shaComboW [0] ⟨768, "nomic-embed-text", "ollama", 0⟩
      ≠ fileFingerprint shaFileW shaComboW [1] ⟨768, "nomic-embed-text", "ollama", 0⟩ ∧
    fileFingerprint shaFileW shaComboW [0] ⟨768, "nomic-embed-text", "ollama", 0⟩
      ≠ fileFingerprint shaFileW shaComboW [0] ⟨512, "nomic-embed-text", "ollama", 0⟩ ∧
    fileFingerprint shaFileW shaComboW [0] ⟨768, "nomic-embed-text", "ollama", 0⟩
      ≠ fileFingerprint shaFileW shaComboW [0] ⟨768, "other-model", "ollama", 0⟩ := by
  refine ⟨?_, ?_, ?_, ?_⟩
  · exact (C8_fingerprint_det shaFileW shaComboW shaFileW_injective shaComboW_injective
      [0] [0] ⟨768, "nomic-embed-text", "ollama", 0⟩ ⟨768, "nomic-embed-text", "ollama", 0⟩).1
      rfl rfl
  · exact (C8_fingerprint_det shaFileW shaComboW shaFileW_injective shaComboW_injective
      [0] [1] ⟨768, "nomic-embed-text", "ollama", 0⟩ ⟨768, "nomic-embed-text", "ollama", 0⟩).2
      (Or.inl (by decide))
  · exact (C8_fingerprint_det shaFileW shaComboW shaFileW_injective shaComboW_injective
      [0] [0] ⟨768, "nomic-embed-text", "ollama", 0⟩ ⟨512, "nomic-embed-text", "ollama", 0⟩).2
      (Or.inr (by decide))
  · exact (C8_fingerprint_det shaFileW shaComboW shaFileW_injective shaComboW_injective
      [0] [0] ⟨768, "nomic-embed-text", "ollama", 0⟩ ⟨768, "other-model", "ollama", 0⟩).2
      (Or.inr (by decide))

end Rag
